import Mathlib

/-!
Verification of the jiggly-fever physics kernel (src/lib.rs).

The kernel is embedded shallowly: `f32` becomes `ℚ`, the `JigglyBoard`
trait becomes a structure bundling the cell storage (`Loc → SlimePropsOut`),
the column enumeration and the direction-aware impulse-transfer function,
and the `Direction` trait becomes a `DirOps` record.  The recursive
`propagate_jiggle` is given explicit fuel; every statement about it
quantifies over the fuel where the source recursion is unbounded.
-/

namespace JigglyFever

/-- Configuration constants (struct `PhysicsProperties`, lib.rs lines 7-18). -/
structure PhysicsProperties where
  gravity : ℚ
  velocity_to_impact : ℚ
  min_impactable : ℚ
  jiggle_stiff : ℚ
  jiggle_damp : ℚ
  jiggle_life_decrease_rate : ℚ
  jiggle_life_threshold : ℚ
  jiggle_life_threshold_inverse : ℚ
  jiggle_offset_epsilon : ℚ
  jiggle_momentum_epsilon : ℚ

/-- The three-variant cell state (enum `SlimeState`, lib.rs lines 20-30). -/
inductive SlimeState where
  | Settled : SlimeState
  | Falling (velocity : ℚ) : SlimeState
  | Jiggling (momentum offset life : ℚ) : SlimeState
deriving DecidableEq

/-- Read view of one cell (struct `SlimePropsIn`, lib.rs lines 32-35). -/
structure SlimePropsIn where
  state : SlimeState
  y_bottom : ℚ

/-- Write-back of one cell (struct `SlimePropsOut`, lib.rs lines 37-42). -/
structure SlimePropsOut where
  state : SlimeState
  y_bottom : ℚ
  y_scale : ℚ
  x_scale : ℚ
deriving DecidableEq

/-- A pending impulse event (struct `JigglePropagation`, lib.rs lines 58-62).
The source field `at` is a Lean keyword, hence `atLoc`. -/
structure JigglePropagation (Loc Dir : Type) where
  atLoc : Loc
  impulse : ℚ
  came_from : Dir

/-- The `Direction` trait (lib.rs lines 52-56): enumeration of the other
directions, the opposite direction, and the distinguished `UP` value. -/
structure DirOps (Dir : Type) where
  otherDirections : Dir → List Dir
  opposite : Dir → Dir
  up : Dir

/-- The board capability (trait `JigglyBoard`, lib.rs lines 64-76): cell
storage, bottom-to-top column enumeration, and the combined
"allowed / destination / attenuation" transfer function `apply_dir_to_loc`.
The transfer function is the board's static topology and falloff policy;
it does not read the mutable cell states. -/
structure JigglyBoard (Loc Dir : Type) where
  cells : Loc → SlimePropsOut
  cols : List (List Loc)
  applyDirToLoc : Dir → Loc → ℚ → Option (Loc × ℚ)

/-- Rust `f32::clamp(lo, hi)` = `min (max x lo) hi` (for `lo ≤ hi`). -/
def rustClamp (x lo hi : ℚ) : ℚ := min (max x lo) hi

/-- Result of the per-cell update closure (lib.rs lines 90-180): the
written-back cell, the new column offset accumulator, the new settled
flag, and the impulse of the emitted propagation event, if any. -/
structure CellUpdate where
  out : SlimePropsOut
  jiggle_offset : ℚ
  settled : Bool
  impulse_event : Option ℚ

/-- The per-cell state-machine update: a direct transcription of the
closure passed to `mut_slime_with` inside `run_physics`
(lib.rs lines 90-180), with the captured mutable locals `jiggle_offset`,
`settled` and the event push made explicit. -/
def updateCell (dt : ℚ) (pp : PhysicsProperties) (jiggle_offset : ℚ)
    (settled : Bool) (inp : SlimePropsIn) : CellUpdate :=
  match inp.state with
  | .Settled =>
      { out := { state := .Settled, y_bottom := jiggle_offset,
                 y_scale := 1, x_scale := 1 },
        jiggle_offset := jiggle_offset + 1,
        settled := settled,
        impulse_event := none }
  | .Falling velocity =>
      let velocity := velocity + dt * pp.gravity
      let y_bottom := inp.y_bottom - velocity * dt
      if y_bottom ≤ jiggle_offset then
        { out := { state := .Jiggling 0 0 1, y_bottom := jiggle_offset,
                   y_scale := 1, x_scale := 1 },
          jiggle_offset := jiggle_offset + 1,
          settled := false,
          impulse_event := some (pp.velocity_to_impact * velocity) }
      else
        let clamped_vel := rustClamp (velocity * (1 / 9) + 1) 1 2
        { out := { state := .Falling velocity, y_bottom := y_bottom,
                   y_scale := 1 * clamped_vel, x_scale := 1 / clamped_vel },
          jiggle_offset := jiggle_offset,
          settled := false,
          impulse_event := none }
  | .Jiggling momentum offset life =>
      let y_bottom := jiggle_offset
      let accdt := pp.jiggle_stiff * (-offset) * dt
      let momentum1 := (momentum + accdt) * pp.jiggle_damp
      let offset1 := offset + momentum1 * dt
      let offset2 := if life < pp.jiggle_life_threshold then
        offset1 * (life * pp.jiggle_life_threshold_inverse) else offset1
      let momentum2 := if life < pp.jiggle_life_threshold then
        momentum1 * (life * pp.jiggle_life_threshold_inverse) else momentum1
      if life ≤ 0 ∨ (|offset2| < pp.jiggle_offset_epsilon ∧
          |momentum2| < pp.jiggle_momentum_epsilon) then
        { out := { state := .Settled, y_bottom := y_bottom,
                   y_scale := 1, x_scale := 1 },
          jiggle_offset := jiggle_offset + 1,
          settled := false,
          impulse_event := none }
      else
        let life := life - pp.jiggle_life_decrease_rate * dt
        let y_scale := max (1 - offset2) 0
        let x_scale := (max y_scale (1 / 2))⁻¹
        { out := { state := .Jiggling momentum2 offset2 life,
                   y_bottom := y_bottom, y_scale := y_scale,
                   x_scale := x_scale },
          jiggle_offset := jiggle_offset + y_scale,
          settled := false,
          impulse_event := none }

/-- The state-merge closure passed to `impulse_jiggle_with` inside
`propagate_jiggle` (lib.rs lines 209-230). -/
def jiggleImpulseMerge (velocity_to_impact impulse : ℚ) :
    SlimeState → SlimeState
  | .Settled => .Jiggling impulse 0 1
  | .Falling velocity => .Jiggling (impulse + velocity * velocity_to_impact) 0 1
  | .Jiggling momentum offset _ => .Jiggling (momentum + impulse) offset 1

/-- `impulse_jiggle_with` / `modify_state` (lib.rs lines 48-50, 76):
read-modify-write of one location's state only. -/
def impulseJiggleWith {Loc Dir : Type} [DecidableEq Loc]
    (b : JigglyBoard Loc Dir) (loc : Loc) (f : SlimeState → SlimeState) :
    JigglyBoard Loc Dir :=
  { b with cells := fun l => if l = loc then
      { b.cells l with state := f (b.cells l).state } else b.cells l }

/-- `propagate_jiggle` (lib.rs lines 189-245), with explicit fuel: at fuel
0 the call does nothing; at fuel `n+1` the body runs, recursing with fuel
`n`.  The body: return immediately when the impulse is below
`min_impactable`; otherwise apply the merge closure at the target and fold
the recursion over the directions other than `came_from`, skipping
directions for which the board returns no destination. -/
def propagateJiggle {Loc Dir : Type} [DecidableEq Loc] (D : DirOps Dir)
    (pp : PhysicsProperties) :
    Nat → JigglyBoard Loc Dir → JigglePropagation Loc Dir →
      JigglyBoard Loc Dir
  | 0, b, _ => b
  | Nat.succ fuel, b, p =>
      if p.impulse < pp.min_impactable then b
      else
        let b1 := impulseJiggleWith b p.atLoc
          (jiggleImpulseMerge pp.velocity_to_impact p.impulse)
        (D.otherDirections p.came_from).foldl
          (fun bb dir =>
            match bb.applyDirToLoc dir p.atLoc p.impulse with
            | none => bb
            | some (at2, impulse2) =>
                propagateJiggle D pp fuel bb ⟨at2, impulse2, D.opposite dir⟩)
          b1

/-- The mutable state threaded through the update pass of `run_physics`:
the board, the per-column `jiggle_offset` accumulator, the `settled` flag
and the `jiggle_propagations` vector (lib.rs lines 80-88). -/
structure TickState (Loc Dir : Type) where
  board : JigglyBoard Loc Dir
  jiggle_offset : ℚ
  settled : Bool
  events : List (JigglePropagation Loc Dir)

/-- One iteration of the inner per-cell loop of `run_physics`
(lib.rs lines 89-181): run the update closure on the cell at `location`
and write the result back. -/
def stepCell {Loc Dir : Type} [DecidableEq Loc] (D : DirOps Dir) (dt : ℚ)
    (pp : PhysicsProperties) (s : TickState Loc Dir) (location : Loc) :
    TickState Loc Dir :=
  let u := updateCell dt pp s.jiggle_offset s.settled
    ⟨(s.board.cells location).state, (s.board.cells location).y_bottom⟩
  { board := { s.board with cells := fun l =>
      if l = location then u.out else s.board.cells l },
    jiggle_offset := u.jiggle_offset,
    settled := u.settled,
    events := s.events ++ (match u.impulse_event with
      | none => []
      | some i => [⟨location, i, D.up⟩]) }

/-- One column of the update pass (inner `for` loop, lib.rs line 89). -/
def stepCol {Loc Dir : Type} [DecidableEq Loc] (D : DirOps Dir) (dt : ℚ)
    (pp : PhysicsProperties) (s : TickState Loc Dir) (col : List Loc) :
    TickState Loc Dir :=
  col.foldl (stepCell D dt pp) s

/-- All columns of the update pass (outer `for` loop, lib.rs line 87):
each column restarts `jiggle_offset` at 0. -/
def stepCols {Loc Dir : Type} [DecidableEq Loc] (D : DirOps Dir) (dt : ℚ)
    (pp : PhysicsProperties) (s : TickState Loc Dir)
    (cols : List (List Loc)) : TickState Loc Dir :=
  cols.foldl (fun s col => stepCol D dt pp { s with jiggle_offset := 0 } col) s

/-- `run_physics` (lib.rs lines 79-188): the update pass over all columns
followed by the propagation pass over the recorded events, returning the
mutated board and the `settled` flag. -/
def runPhysics {Loc Dir : Type} [DecidableEq Loc] (fuel : Nat)
    (D : DirOps Dir) (dt : ℚ) (pp : PhysicsProperties)
    (b : JigglyBoard Loc Dir) : JigglyBoard Loc Dir × Bool :=
  let s := stepCols D dt pp ⟨b, 0, true, []⟩ b.cols
  (s.events.foldl (fun bb p => propagateJiggle D pp fuel bb p) s.board,
   s.settled)

/-- The list of recursive calls issued by the fan-out loop of
`propagate_jiggle` (lib.rs lines 232-244), each paired with the direction
that produced it: one entry per direction of `other_directions came_from`
for which the transfer function returns a destination. -/
def fanOutCalls {Loc Dir : Type} (D : DirOps Dir) (b : JigglyBoard Loc Dir)
    (came_from : Dir) (atLoc : Loc) (impulse : ℚ) :
    List (Dir × JigglePropagation Loc Dir) :=
  (D.otherDirections came_from).filterMap (fun dir =>
    match b.applyDirToLoc dir atLoc impulse with
    | none => none
    | some (at2, impulse2) => some (dir, ⟨at2, impulse2, D.opposite dir⟩))

/-! Concrete instances used by scenario theorems and witnesses. -/

/-- A configuration with every constant 0. -/
def ppZero : PhysicsProperties :=
  { gravity := 0, velocity_to_impact := 0, min_impactable := 0,
    jiggle_stiff := 0, jiggle_damp := 0, jiggle_life_decrease_rate := 0,
    jiggle_life_threshold := 0, jiggle_life_threshold_inverse := 0,
    jiggle_offset_epsilon := 0, jiggle_momentum_epsilon := 0 }

/-- The configuration of the spec's falling scenario: gravity -9.8. -/
def ppScenario : PhysicsProperties := { ppZero with gravity := -49/5 }

/-- A configuration whose propagation floor is 1. -/
def ppFloor : PhysicsProperties := { ppZero with min_impactable := 1 }

/-- The trivial direction type: one direction, no others. -/
def dirUnit : DirOps Unit := ⟨fun _ => [], fun d => d, ()⟩

/-- A one-cell board holding a half-life jiggling cell, with no impulse
transfer in any direction. -/
def boardJiggleHalf : JigglyBoard Unit Unit :=
  ⟨fun _ => ⟨.Jiggling 0 0 (1/2), 0, 1, 1⟩, [[()]], fun _ _ _ => none⟩

/-- A one-cell board holding a settled cell, with no impulse transfer. -/
def boardSettled : JigglyBoard Unit Unit :=
  ⟨fun _ => ⟨.Settled, 0, 1, 1⟩, [[()]], fun _ _ _ => none⟩

/-- A one-cell board holding a jiggling cell whose life has reached 0. -/
def boardJiggleZero : JigglyBoard Unit Unit :=
  ⟨fun _ => ⟨.Jiggling 0 0 0, 0, 1, 1⟩, [[()]], fun _ _ _ => none⟩

/-- A two-direction type: each direction's only other direction is its
negation, which is also its opposite; `up` is `true`. -/
def dirBool : DirOps Bool := ⟨fun d => [!d], fun d => !d, true⟩

/-- A two-cell board on `Bool` locations where each direction leads to the
other cell at half the impulse. -/
def boardPair : JigglyBoard Bool Bool :=
  ⟨fun _ => ⟨.Settled, 0, 1, 1⟩, [[false], [true]],
   fun _ l i => some (!l, i / 2)⟩

/-! ## C10: scale-factor ranges -/

/-- The divisor `y_scale.max(0.5)` of the jiggling `x_scale` is positive. -/
lemma maxHalf_pos (Y : ℚ) : 0 < max Y (1/2) :=
  lt_of_lt_of_le (by norm_num) (le_max_right _ _)

/-- The jiggling `x_scale` is positive. -/
lemma xscale_pos (Y : ℚ) : 0 < (max Y (1/2))⁻¹ := inv_pos.mpr (maxHalf_pos Y)

/-- The jiggling `x_scale` is at most 2. -/
lemma xscale_le_two (Y : ℚ) : (max Y (1/2))⁻¹ ≤ 2 := by
  have h := inv_anti₀ (show (0:ℚ) < 1/2 by norm_num) (le_max_right Y (1/2))
  norm_num at h
  exact h

/-- C10: every `SlimePropsOut` produced by the per-cell update, in every
branch and for every input, has `y_scale ≥ 0` and `0 < x_scale ≤ 2`. -/
theorem spec_C10 (dt : ℚ) (pp : PhysicsProperties) (off : ℚ) (s : Bool)
    (inp : SlimePropsIn) :
    0 ≤ (updateCell dt pp off s inp).out.y_scale ∧
    0 < (updateCell dt pp off s inp).out.x_scale ∧
    (updateCell dt pp off s inp).out.x_scale ≤ 2 := by
  rcases inp with ⟨st, yb⟩
  cases st with
  | Settled => refine ⟨by norm_num [updateCell], by norm_num [updateCell],
      by norm_num [updateCell]⟩
  | Falling v =>
    simp only [updateCell]
    split
    · norm_num
    · have h1 : (1:ℚ) ≤ rustClamp ((v + dt * pp.gravity) * (1/9) + 1) 1 2 :=
        le_min (le_max_right _ _) one_le_two
      have h2 : rustClamp ((v + dt * pp.gravity) * (1/9) + 1) 1 2 ≤ 2 :=
        min_le_right _ _
      have hpos : (0:ℚ) < rustClamp ((v + dt * pp.gravity) * (1/9) + 1) 1 2 :=
        by linarith
      refine ⟨by nlinarith, div_pos one_pos hpos, ?_⟩
      have : (1:ℚ) / rustClamp ((v + dt * pp.gravity) * (1/9) + 1) 1 2 ≤ 1 :=
        (div_le_one hpos).mpr h1
      linarith
  | Jiggling m o l =>
    simp only [updateCell]
    split <;> split <;> refine ⟨?_, ?_, ?_⟩ <;>
      first
        | exact le_max_right _ _
        | exact xscale_pos _
        | exact xscale_le_two _
        | norm_num

/-! ## C7: volume preservation while falling -/

/-- C7: a `Falling` cell whose update does not cross the stack top (the
post-integration `y_bottom` stays above the column offset) keeps
`x_scale * y_scale = 1` exactly. -/
theorem spec_C7 (dt : ℚ) (pp : PhysicsProperties) (off : ℚ) (s : Bool)
    (yb v : ℚ) (h : ¬ (yb - (v + dt * pp.gravity) * dt ≤ off)) :
    (updateCell dt pp off s ⟨.Falling v, yb⟩).out.x_scale *
      (updateCell dt pp off s ⟨.Falling v, yb⟩).out.y_scale = 1 := by
  have h1 : (1:ℚ) ≤ rustClamp ((v + dt * pp.gravity) * (1/9) + 1) 1 2 :=
    le_min (le_max_right _ _) one_le_two
  have hne : rustClamp ((v + dt * pp.gravity) * (1/9) + 1) 1 2 ≠ 0 := by
    linarith
  simp only [updateCell, if_neg h]
  rw [one_mul, one_div, inv_mul_cancel₀ hne]

/-- Witness for C7 at dt = 0, v = 0, y_bottom = 1, offset = 0. -/
theorem spec_C7_witness :
    (updateCell 0 ppZero 0 true ⟨.Falling 0, 1⟩).out.x_scale *
      (updateCell 0 ppZero 0 true ⟨.Falling 0, 1⟩).out.y_scale = 1 :=
  spec_C7 0 ppZero 0 true 1 0 (by norm_num [ppZero])

/-! ## C8: the spec's numerical falling scenario -/

/-- C8: one update of `Falling{velocity:-5}` with gravity -9.8, dt 0.1,
`y_bottom` 10 and offset 0 yields velocity -5.98 = -299/50, `y_bottom`
10.598 = 5299/500, stays `Falling`, scales both 1, and emits no event. -/
theorem spec_C8 :
    (updateCell (1/10) ppScenario 0 true ⟨.Falling (-5), 10⟩).out.state =
        .Falling (-299/50) ∧
    (updateCell (1/10) ppScenario 0 true ⟨.Falling (-5), 10⟩).out.y_bottom =
        5299/500 ∧
    (updateCell (1/10) ppScenario 0 true ⟨.Falling (-5), 10⟩).out.y_scale = 1 ∧
    (updateCell (1/10) ppScenario 0 true ⟨.Falling (-5), 10⟩).out.x_scale = 1 ∧
    (updateCell (1/10) ppScenario 0 true ⟨.Falling (-5), 10⟩).impulse_event =
        none := by
  norm_num [updateCell, ppScenario, ppZero, rustClamp, min_def, max_def]

/-! ## C4: the propagation floor -/

/-- C4: for every fuel, board and propagation whose impulse is strictly
below `min_impactable`, `propagate_jiggle` is a no-op: the board is
returned unchanged, with no mutation and no recursive call. -/
theorem spec_C4 {Loc Dir : Type} [DecidableEq Loc] (D : DirOps Dir)
    (pp : PhysicsProperties) (fuel : Nat) (b : JigglyBoard Loc Dir)
    (p : JigglePropagation Loc Dir) (h : p.impulse < pp.min_impactable) :
    propagateJiggle D pp fuel b p = b := by
  cases fuel with
  | zero => rfl
  | succ n => simp only [propagateJiggle, if_pos h]

/-- Witness for C4: impulse 0 against floor 1 leaves the board unchanged. -/
theorem spec_C4_witness :
    propagateJiggle dirUnit ppFloor 1 boardJiggleHalf ⟨(), 0, ()⟩ =
      boardJiggleHalf :=
  spec_C4 dirUnit ppFloor 1 boardJiggleHalf ⟨(), 0, ()⟩
    (by norm_num [ppFloor, ppZero])

/-! ## C5: the impulse merge rule -/

/-- C5: when `propagate_jiggle` applies an impulse at a target location
(impulse at or above `min_impactable`; here with the fan-out blocked so
that only the application at the target is observed), the state merge is
exactly the closure of lib.rs lines 209-230: `Settled` becomes
`Jiggling{impulse, 0, 1}`, `Jiggling{m,o,_}` becomes
`Jiggling{m+impulse, o, 1}`, and `Falling{v}` becomes
`Jiggling{impulse + v*velocity_to_impact, 0, 1}`. -/
theorem spec_C5 {Loc Dir : Type} [DecidableEq Loc] (D : DirOps Dir)
    (pp : PhysicsProperties) (fuel : Nat) (b : JigglyBoard Loc Dir)
    (atL : Loc) (cf : Dir) (impulse m o l v : ℚ)
    (himp : ¬ impulse < pp.min_impactable)
    (hblock : ∀ d, b.applyDirToLoc d atL impulse = none) :
    (((propagateJiggle D pp (fuel + 1) b ⟨atL, impulse, cf⟩).cells atL).state
       = jiggleImpulseMerge pp.velocity_to_impact impulse
           ((b.cells atL).state)) ∧
    ((b.cells atL).state = .Settled →
      ((propagateJiggle D pp (fuel + 1) b ⟨atL, impulse, cf⟩).cells atL).state
        = .Jiggling impulse 0 1) ∧
    ((b.cells atL).state = .Jiggling m o l →
      ((propagateJiggle D pp (fuel + 1) b ⟨atL, impulse, cf⟩).cells atL).state
        = .Jiggling (m + impulse) o 1) ∧
    ((b.cells atL).state = .Falling v →
      ((propagateJiggle D pp (fuel + 1) b ⟨atL, impulse, cf⟩).cells atL).state
        = .Jiggling (impulse + v * pp.velocity_to_impact) 0 1) := by
  have hfold : ∀ (dirs : List Dir) (bb : JigglyBoard Loc Dir),
      bb.applyDirToLoc = b.applyDirToLoc →
      dirs.foldl (fun bb dir =>
        match bb.applyDirToLoc dir atL impulse with
        | none => bb
        | some (at2, impulse2) =>
            propagateJiggle D pp fuel bb ⟨at2, impulse2, D.opposite dir⟩)
        bb = bb := by
    intro dirs
    induction dirs with
    | nil => intro bb h; rfl
    | cons d ds ih =>
      intro bb h
      have hnone : bb.applyDirToLoc d atL impulse = none := by
        rw [h]; exact hblock d
      rw [List.foldl_cons]
      simp only [hnone]
      exact ih bb h
  have hstep : propagateJiggle D pp (fuel + 1) b ⟨atL, impulse, cf⟩ =
      impulseJiggleWith b atL
        (jiggleImpulseMerge pp.velocity_to_impact impulse) := by
    simp only [propagateJiggle, if_neg himp]
    exact hfold _ _ rfl
  have hcell : ((propagateJiggle D pp (fuel + 1) b ⟨atL, impulse, cf⟩).cells
      atL).state = jiggleImpulseMerge pp.velocity_to_impact impulse
        ((b.cells atL).state) := by
    rw [hstep]; simp [impulseJiggleWith]
  refine ⟨hcell, ?_, ?_, ?_⟩
  · intro hst; rw [hcell, hst]; rfl
  · intro hst; rw [hcell, hst]; rfl
  · intro hst; rw [hcell, hst]; rfl

/-- Witness for C5: impulse 1 on a settled one-cell board with a blocked
topology produces `Jiggling{1, 0, 1}`. -/
theorem spec_C5_witness :
    ((propagateJiggle dirUnit ppZero 1 boardSettled ⟨(), 1, ()⟩).cells
      ()).state = .Jiggling 1 0 1 :=
  (spec_C5 dirUnit ppZero 0 boardSettled () () 1 0 0 0 0
    (by norm_num [ppZero]) (fun d => rfl)).2.1 rfl

/-! ## C2: the falling impact test -/

/-- C2 counterexample: a cell beginning the tick `Falling{-5}` with
`y_bottom` 0 already at the column offset 0 is NOT clamp-and-impacted:
with gravity -9.8 and dt 0.1 the integration moves `y_bottom` to
0.598 > 0, so the cell stays `Falling` and no impact event is emitted. -/
theorem spec_C2_counterexample :
    ((0:ℚ) ≤ 0) ∧
    (updateCell (1/10) ppScenario 0 true ⟨.Falling (-5), 0⟩).out.state =
      .Falling (-299/50) ∧
    (updateCell (1/10) ppScenario 0 true ⟨.Falling (-5), 0⟩).impulse_event =
      none ∧
    (updateCell (1/10) ppScenario 0 true ⟨.Falling (-5), 0⟩).out.y_bottom =
      299/500 := by
  norm_num [updateCell, ppScenario, ppZero, rustClamp, min_def, max_def]

/-- C2 amended: the impact test is applied to the post-integration
`y_bottom`: whenever `y_bottom - (velocity + dt*gravity)*dt ≤ offset`,
the cell is clamped to the offset, becomes `Jiggling{0,0,1}`, emits one
impact event with impulse `velocity_to_impact * new_velocity`, and
contributes 1 to the column accumulator. -/
theorem spec_C2_amended (dt : ℚ) (pp : PhysicsProperties) (off : ℚ)
    (s : Bool) (yb v : ℚ) (h : yb - (v + dt * pp.gravity) * dt ≤ off) :
    (updateCell dt pp off s ⟨.Falling v, yb⟩).out.state = .Jiggling 0 0 1 ∧
    (updateCell dt pp off s ⟨.Falling v, yb⟩).out.y_bottom = off ∧
    (updateCell dt pp off s ⟨.Falling v, yb⟩).impulse_event =
      some (pp.velocity_to_impact * (v + dt * pp.gravity)) ∧
    (updateCell dt pp off s ⟨.Falling v, yb⟩).jiggle_offset = off + 1 ∧
    (updateCell dt pp off s ⟨.Falling v, yb⟩).settled = false := by
  simp only [updateCell, if_pos h]
  exact ⟨trivial, trivial, trivial, trivial, trivial⟩

/-- Witness for C2 (amended) at dt = 1, v = 0, y_bottom = 0, offset 0. -/
theorem spec_C2_witness :
    (updateCell 1 ppZero 0 true ⟨.Falling 0, 0⟩).out.state =
      .Jiggling 0 0 1 :=
  (spec_C2_amended 1 ppZero 0 true 0 0 (by norm_num [ppZero])).1

/-! ## C3: life monotonicity -/

/-- C3 counterexample: impulse application is an operation of the kernel
that INCREASES `life`: a jiggling cell with life 1/2 hit by impulse 1 has
its life refreshed to 1 > 1/2. -/
theorem spec_C3_counterexample :
    (boardJiggleHalf.cells ()).state = .Jiggling 0 0 (1/2) ∧
    ((propagateJiggle dirUnit ppZero 1 boardJiggleHalf ⟨(), 1, ()⟩).cells
      ()).state = .Jiggling 1 0 1 ∧
    ((1:ℚ)/2) < 1 := by
  refine ⟨rfl, ?_, by norm_num⟩
  norm_num [propagateJiggle, ppZero, impulseJiggleWith, jiggleImpulseMerge,
    boardJiggleHalf, dirUnit]

/-- C3 amended: across per-cell updates, `life` is non-increasing while
the cell remains `Jiggling` (whenever `life_decrease_rate * dt ≥ 0`), and
a cell entering the update with `life ≤ 0` transitions to `Settled` on
that same update; impulse application instead refreshes `life` to 1 and
can therefore increase it. -/
theorem spec_C3_amended (dt : ℚ) (pp : PhysicsProperties) (off : ℚ)
    (s : Bool) (yb m o l : ℚ)
    (hrate : 0 ≤ pp.jiggle_life_decrease_rate * dt) :
    (∀ m2 o2 l2,
      (updateCell dt pp off s ⟨.Jiggling m o l, yb⟩).out.state =
        .Jiggling m2 o2 l2 → l2 ≤ l) ∧
    (l ≤ 0 →
      (updateCell dt pp off s ⟨.Jiggling m o l, yb⟩).out.state = .Settled) := by
  constructor
  · intro m2 o2 l2 hst
    simp only [updateCell] at hst
    split at hst
    · split at hst
      · simp at hst
      · simp only [SlimeState.Jiggling.injEq] at hst
        obtain ⟨-, -, h3⟩ := hst
        linarith
    · split at hst
      · simp at hst
      · simp only [SlimeState.Jiggling.injEq] at hst
        obtain ⟨-, -, h3⟩ := hst
        linarith
  · intro hl
    simp only [updateCell]
    rw [if_pos (Or.inl hl)]

/-- Witness for C3 (amended): a life-0 jiggling cell settles. -/
theorem spec_C3_witness :
    (updateCell 1 ppZero 0 true ⟨.Jiggling 0 0 0, 0⟩).out.state =
      .Settled :=
  (spec_C3_amended 1 ppZero 0 true 0 0 0 0
    (by norm_num [ppZero])).2 (by norm_num)

/-! ## C9: column offset accumulation -/

/-- Every branch of the per-cell update leaves the column offset
accumulator at or above its input value. -/
lemma updateCell_offset_mono (dt : ℚ) (pp : PhysicsProperties) (off : ℚ)
    (s : Bool) (inp : SlimePropsIn) :
    off ≤ (updateCell dt pp off s inp).jiggle_offset := by
  rcases inp with ⟨st, yb⟩
  cases st with
  | Settled => simp only [updateCell]; linarith
  | Falling v =>
    simp only [updateCell]
    split <;> (try dsimp only)
    · linarith
    · exact le_refl _
  | Jiggling m o l =>
    simp only [updateCell]
    split <;> split <;> (try dsimp only) <;>
      first
        | linarith
        | exact le_add_of_nonneg_right (le_max_right _ _)

/-- One cell step never decreases the column offset accumulator. -/
lemma stepCell_offset_mono {Loc Dir : Type} [DecidableEq Loc]
    (D : DirOps Dir) (dt : ℚ) (pp : PhysicsProperties)
    (st : TickState Loc Dir) (loc : Loc) :
    st.jiggle_offset ≤ (stepCell D dt pp st loc).jiggle_offset :=
  updateCell_offset_mono dt pp st.jiggle_offset st.settled _

/-- A whole column pass never decreases the column offset accumulator. -/
lemma stepCol_offset_mono {Loc Dir : Type} [DecidableEq Loc]
    (D : DirOps Dir) (dt : ℚ) (pp : PhysicsProperties)
    (st : TickState Loc Dir) (col : List Loc) :
    st.jiggle_offset ≤ (stepCol D dt pp st col).jiggle_offset := by
  induction col generalizing st with
  | nil => exact le_refl _
  | cons c cs ih =>
    calc st.jiggle_offset ≤ (stepCell D dt pp st c).jiggle_offset :=
          stepCell_offset_mono D dt pp st c
      _ ≤ (stepCol D dt pp (stepCell D dt pp st c) cs).jiggle_offset :=
          ih (stepCell D dt pp st c)

/-- C9: within one tick each column's offset accumulator starts at 0 and
is non-decreasing bottom-to-top: a `Settled` cell, an impacting `Falling`
cell and a settling `Jiggling` cell contribute 1, a continuing `Jiggling`
cell contributes `y_scale = max (1 - offset) 0 ≥ 0`, a non-impacting
`Falling` cell contributes 0, and each column of the outer loop is
processed from a fresh accumulator reset to 0. -/
theorem spec_C9 {Loc Dir : Type} [DecidableEq Loc] (D : DirOps Dir)
    (dt : ℚ) (pp : PhysicsProperties) (off : ℚ) (s : Bool) (yb v m o l : ℚ)
    (inp : SlimePropsIn) (st : TickState Loc Dir) (col : List Loc)
    (cols : List (List Loc)) :
    ((updateCell dt pp off s ⟨.Settled, yb⟩).jiggle_offset = off + 1) ∧
    ((yb - (v + dt * pp.gravity) * dt ≤ off) →
      (updateCell dt pp off s ⟨.Falling v, yb⟩).jiggle_offset = off + 1) ∧
    (¬ (yb - (v + dt * pp.gravity) * dt ≤ off) →
      (updateCell dt pp off s ⟨.Falling v, yb⟩).jiggle_offset = off) ∧
    ((updateCell dt pp off s ⟨.Jiggling m o l, yb⟩).jiggle_offset =
      off + (updateCell dt pp off s ⟨.Jiggling m o l, yb⟩).out.y_scale) ∧
    ((updateCell dt pp off s ⟨.Jiggling m o l, yb⟩).out.state = .Settled →
      (updateCell dt pp off s ⟨.Jiggling m o l, yb⟩).out.y_scale = 1) ∧
    (∀ m2 o2 l2,
      (updateCell dt pp off s ⟨.Jiggling m o l, yb⟩).out.state =
        .Jiggling m2 o2 l2 →
      (updateCell dt pp off s ⟨.Jiggling m o l, yb⟩).out.y_scale =
        max (1 - o2) 0 ∧
      0 ≤ (updateCell dt pp off s ⟨.Jiggling m o l, yb⟩).out.y_scale) ∧
    (off ≤ (updateCell dt pp off s inp).jiggle_offset) ∧
    (st.jiggle_offset ≤ (stepCol D dt pp st col).jiggle_offset) ∧
    (stepCols D dt pp st (col :: cols) =
      stepCols D dt pp (stepCol D dt pp { st with jiggle_offset := 0 } col)
        cols) := by
  refine ⟨rfl, ?_, ?_, ?_, ?_, ?_, updateCell_offset_mono dt pp off s inp,
    stepCol_offset_mono D dt pp st col, rfl⟩
  · intro h; simp only [updateCell, if_pos h]
  · intro h; simp only [updateCell, if_neg h]
  · simp only [updateCell]
    split <;> split <;> rfl
  · intro hst
    simp only [updateCell] at hst ⊢
    by_cases htap : l < pp.jiggle_life_threshold <;>
      simp only [htap, if_true, if_false] at hst ⊢
    all_goals
      split
      next hC => rfl
      next hC =>
        rw [if_neg hC] at hst
        exact absurd hst (by simp)
  · intro m2 o2 l2 hst
    simp only [updateCell] at hst ⊢
    by_cases htap : l < pp.jiggle_life_threshold <;>
      simp only [htap, if_true, if_false] at hst ⊢
    all_goals
      split
      next hC =>
        rw [if_pos hC] at hst
        exact absurd hst (by simp)
      next hC =>
        rw [if_neg hC] at hst
        simp only [SlimeState.Jiggling.injEq] at hst
        obtain ⟨-, h2, -⟩ := hst
        constructor
        · dsimp only; rw [h2]
        · exact le_max_right _ _

/-- Witness for C9: at dt = 1, offset 0, a falling cell with velocity 0
starting at `y_bottom` 0 impacts and contributes 1. -/
theorem spec_C9_witness :
    (updateCell 1 ppZero 0 true ⟨.Falling 0, 0⟩).jiggle_offset = 0 + 1 :=
  (spec_C9 dirUnit 1 ppZero 0 true 0 0 0 0 0 ⟨.Settled, 0⟩
    ⟨boardSettled, 0, true, []⟩ [] []).2.1 (by norm_num [ppZero])

/-! ## C6: the fan-out of propagate_jiggle -/

/-- Propagation mutates cell states only: the transfer function (the
board's static topology) is unchanged by `propagateJiggle`. -/
lemma propagateJiggle_topology {Loc Dir : Type} [DecidableEq Loc]
    (D : DirOps Dir) (pp : PhysicsProperties) :
    ∀ (fuel : Nat) (b : JigglyBoard Loc Dir) (p : JigglePropagation Loc Dir),
      (propagateJiggle D pp fuel b p).applyDirToLoc = b.applyDirToLoc := by
  intro fuel
  induction fuel with
  | zero => intro b p; rfl
  | succ n ih =>
    intro b p
    simp only [propagateJiggle]
    split
    · rfl
    · have hfold : ∀ (dirs : List Dir) (bb : JigglyBoard Loc Dir),
          bb.applyDirToLoc = b.applyDirToLoc →
          (dirs.foldl (fun bb dir =>
            match bb.applyDirToLoc dir p.atLoc p.impulse with
            | none => bb
            | some (at2, impulse2) =>
                propagateJiggle D pp n bb ⟨at2, impulse2, D.opposite dir⟩)
            bb).applyDirToLoc = b.applyDirToLoc := by
        intro dirs
        induction dirs with
        | nil => intro bb h; exact h
        | cons d ds ihd =>
          intro bb h
          rw [List.foldl_cons]
          rcases hm : bb.applyDirToLoc d p.atLoc p.impulse with - | ⟨a, i⟩
          · simp only [hm]
            exact ihd bb h
          · simp only [hm]
            exact ihd _ ((ih bb ⟨a, i, D.opposite d⟩).trans h)
      exact hfold _ _ rfl

/-- C6: with the impulse at or above the floor, `propagate_jiggle`
factors as the merge application at the target followed by one recursive
call per entry of `fanOutCalls`; `fanOutCalls` holds exactly one entry
for each direction other than the arrival direction for which the board
returns a destination, carrying that destination, the attenuated impulse,
and `came_from` equal to the opposite of the direction taken, and no
entry arises from the arrival direction itself. -/
theorem spec_C6 {Loc Dir : Type} [DecidableEq Loc] (D : DirOps Dir)
    (pp : PhysicsProperties) (fuel : Nat) (b : JigglyBoard Loc Dir)
    (atL : Loc) (imp : ℚ) (cf : Dir) (h : ¬ imp < pp.min_impactable) :
    (propagateJiggle D pp (fuel + 1) b ⟨atL, imp, cf⟩ =
      (fanOutCalls D b cf atL imp).foldl
        (fun bb c => propagateJiggle D pp fuel bb c.2)
        (impulseJiggleWith b atL
          (jiggleImpulseMerge pp.velocity_to_impact imp))) ∧
    (∀ d q, (d, q) ∈ fanOutCalls D b cf atL imp ↔
      (d ∈ D.otherDirections cf ∧
        b.applyDirToLoc d atL imp = some (q.atLoc, q.impulse) ∧
        q.came_from = D.opposite d)) ∧
    ((fanOutCalls D b cf atL imp).map Prod.fst =
      (D.otherDirections cf).filter
        (fun d => (b.applyDirToLoc d atL imp).isSome)) ∧
    ((D.otherDirections cf).Nodup →
      ((fanOutCalls D b cf atL imp).map Prod.fst).Nodup) ∧
    (cf ∉ D.otherDirections cf →
      ∀ q, (cf, q) ∉ fanOutCalls D b cf atL imp) := by
  have hmapfst : ∀ (dirs : List Dir),
      (dirs.filterMap (fun dir =>
        match b.applyDirToLoc dir atL imp with
        | none => none
        | some (at2, impulse2) =>
            some (dir,
              (⟨at2, impulse2, D.opposite dir⟩ :
                JigglePropagation Loc Dir)))).map Prod.fst =
      dirs.filter (fun d => (b.applyDirToLoc d atL imp).isSome) := by
    intro dirs
    induction dirs with
    | nil => rfl
    | cons d ds ihd =>
      rcases hm : b.applyDirToLoc d atL imp with - | ⟨a, i⟩ <;>
        simp [List.filterMap_cons, List.filter_cons, hm, ihd]
  have hmem : ∀ (d : Dir) (q : JigglePropagation Loc Dir),
      (d, q) ∈ fanOutCalls D b cf atL imp ↔
      (d ∈ D.otherDirections cf ∧
        b.applyDirToLoc d atL imp = some (q.atLoc, q.impulse) ∧
        q.came_from = D.opposite d) := by
    intro d q
    simp only [fanOutCalls, List.mem_filterMap]
    constructor
    · rintro ⟨d0, hd0, hf⟩
      rcases hm : b.applyDirToLoc d0 atL imp with - | ⟨a, i⟩
      · rw [hm] at hf
        exact absurd hf (by simp)
      · rw [hm] at hf
        simp only [Option.some.injEq, Prod.mk.injEq] at hf
        obtain ⟨hd, hq⟩ := hf
        subst hd
        subst hq
        exact ⟨hd0, hm, rfl⟩
    · rintro ⟨hmem0, happ, hcf⟩
      refine ⟨d, hmem0, ?_⟩
      rw [happ]
      rcases q with ⟨qa, qi, qc⟩
      simp only at happ hcf
      rw [hcf]
  refine ⟨?_, hmem, hmapfst _, ?_, ?_⟩
  · simp only [propagateJiggle, if_neg h]
    have hfold : ∀ (dirs : List Dir) (bb : JigglyBoard Loc Dir),
        bb.applyDirToLoc = b.applyDirToLoc →
        dirs.foldl (fun bb dir =>
          match bb.applyDirToLoc dir atL imp with
          | none => bb
          | some (at2, impulse2) =>
              propagateJiggle D pp fuel bb ⟨at2, impulse2, D.opposite dir⟩)
          bb =
        (dirs.filterMap (fun dir =>
          match b.applyDirToLoc dir atL imp with
          | none => none
          | some (at2, impulse2) =>
              some (dir,
                (⟨at2, impulse2, D.opposite dir⟩ :
                  JigglePropagation Loc Dir)))).foldl
          (fun bb c => propagateJiggle D pp fuel bb c.2) bb := by
      intro dirs
      induction dirs with
      | nil => intro bb hb; rfl
      | cons d ds ihd =>
        intro bb hb
        rw [List.foldl_cons, List.filterMap_cons]
        rcases hm : b.applyDirToLoc d atL imp with - | ⟨a, i⟩
        · have hm2 : bb.applyDirToLoc d atL imp = none := by rw [hb]; exact hm
          simp only [hm, hm2]
          exact ihd bb hb
        · have hm2 : bb.applyDirToLoc d atL imp = some (a, i) := by
            rw [hb]; exact hm
          simp only [hm, hm2, List.foldl_cons]
          exact ihd _ ((propagateJiggle_topology D pp fuel bb _).trans hb)
    exact hfold _ _ rfl
  · intro hnd
    have hflt := hnd.filter (fun d => (b.applyDirToLoc d atL imp).isSome)
    rw [← hmapfst (D.otherDirections cf)] at hflt
    exact hflt
  · intro hcf q hq
    exact hcf ((hmem cf q).mp hq).1

/-- Witness for C6 on a two-cell board: both fan-out characterizations at
a concrete location and impulse. -/
theorem spec_C6_witness :
    (fanOutCalls dirBool boardPair true true 1).map Prod.fst =
      (dirBool.otherDirections true).filter
        (fun d => (boardPair.applyDirToLoc d true 1).isSome) :=
  (spec_C6 dirBool ppZero 0 boardPair true 1 true
    (by norm_num [ppZero])).2.2.1

/-! ## C1: the settled flag of run_physics -/

/-- Visiting a settled cell changes no cell's state and leaves the flag
and the event list untouched. -/
lemma stepCell_settled_step {Loc Dir : Type} [DecidableEq Loc]
    (D : DirOps Dir) (dt : ℚ) (pp : PhysicsProperties)
    (st : TickState Loc Dir) (loc : Loc)
    (hst : (st.board.cells loc).state = .Settled) :
    (∀ l, ((stepCell D dt pp st loc).board.cells l).state =
      (st.board.cells l).state) ∧
    (stepCell D dt pp st loc).settled = st.settled ∧
    (stepCell D dt pp st loc).events = st.events := by
  refine ⟨?_, ?_, ?_⟩
  · intro l
    by_cases hl : l = loc
    · subst hl
      simp [stepCell, hst, updateCell]
    · simp [stepCell, hl]
  · simp [stepCell, hst, updateCell]
  · simp [stepCell, hst, updateCell]

/-- The per-cell update never turns a false settled flag back to true. -/
lemma updateCell_settled_false (dt : ℚ) (pp : PhysicsProperties) (off : ℚ)
    (inp : SlimePropsIn) : (updateCell dt pp off false inp).settled = false := by
  rcases inp with ⟨st, yb⟩
  cases st <;> simp only [updateCell] <;>
    first
      | rfl
      | (split <;> rfl)
      | (split <;> split <;> rfl)

/-- A cell step never turns a false settled flag back to true. -/
lemma stepCell_settled_false {Loc Dir : Type} [DecidableEq Loc]
    (D : DirOps Dir) (dt : ℚ) (pp : PhysicsProperties)
    (st : TickState Loc Dir) (loc : Loc) (h : st.settled = false) :
    (stepCell D dt pp st loc).settled = false := by
  have heq : (stepCell D dt pp st loc).settled =
      (updateCell dt pp st.jiggle_offset st.settled
        ⟨(st.board.cells loc).state, (st.board.cells loc).y_bottom⟩).settled :=
    rfl
  rw [heq, h]
  exact updateCell_settled_false dt pp st.jiggle_offset _

/-- A column pass never turns a false settled flag back to true. -/
lemma stepCol_settled_false {Loc Dir : Type} [DecidableEq Loc]
    (D : DirOps Dir) (dt : ℚ) (pp : PhysicsProperties)
    (st : TickState Loc Dir) (col : List Loc) (h : st.settled = false) :
    (stepCol D dt pp st col).settled = false := by
  induction col generalizing st with
  | nil => exact h
  | cons c cs ih => exact ih _ (stepCell_settled_false D dt pp st c h)

/-- The whole update pass never turns a false settled flag back to true. -/
lemma stepCols_settled_false {Loc Dir : Type} [DecidableEq Loc]
    (D : DirOps Dir) (dt : ℚ) (pp : PhysicsProperties)
    (st : TickState Loc Dir) (cols : List (List Loc))
    (h : st.settled = false) :
    (stepCols D dt pp st cols).settled = false := by
  induction cols generalizing st with
  | nil => exact h
  | cons c cs ih => exact ih _ (stepCol_settled_false D dt pp _ c h)

/-- Visiting a cell that is not settled forces the flag to false. -/
lemma stepCell_not_settled {Loc Dir : Type} [DecidableEq Loc]
    (D : DirOps Dir) (dt : ℚ) (pp : PhysicsProperties)
    (st : TickState Loc Dir) (loc : Loc)
    (hst : (st.board.cells loc).state ≠ .Settled) :
    (stepCell D dt pp st loc).settled = false := by
  have heq : (stepCell D dt pp st loc).settled =
      (updateCell dt pp st.jiggle_offset st.settled
        ⟨(st.board.cells loc).state, (st.board.cells loc).y_bottom⟩).settled :=
    rfl
  rw [heq]
  rcases hs : (st.board.cells loc).state with - | v | ⟨m, o, l⟩
  · exact absurd hs hst
  · simp only [updateCell]; split <;> rfl
  · simp only [updateCell]; split <;> split <;> rfl

/-- A column pass over settled cells only preserves every cell's state,
the flag and the event list. -/
lemma stepCol_all_settled {Loc Dir : Type} [DecidableEq Loc]
    (D : DirOps Dir) (dt : ℚ) (pp : PhysicsProperties)
    (st : TickState Loc Dir) (col : List Loc) :
    (∀ l ∈ col, (st.board.cells l).state = .Settled) →
    (∀ l, ((stepCol D dt pp st col).board.cells l).state =
      (st.board.cells l).state) ∧
    (stepCol D dt pp st col).settled = st.settled ∧
    (stepCol D dt pp st col).events = st.events := by
  induction col generalizing st with
  | nil => intro h; exact ⟨fun l => rfl, rfl, rfl⟩
  | cons c cs ih =>
    intro h
    have hc : (st.board.cells c).state = .Settled := h c (List.mem_cons_self c cs)
    obtain ⟨hstates1, hflag1, hev1⟩ := stepCell_settled_step D dt pp st c hc
    have h2 : ∀ l ∈ cs,
        ((stepCell D dt pp st c).board.cells l).state = .Settled := by
      intro l hl
      rw [hstates1 l]
      exact h l (List.mem_cons_of_mem c hl)
    obtain ⟨hstates2, hflag2, hev2⟩ := ih (stepCell D dt pp st c) h2
    exact ⟨fun l => (hstates2 l).trans (hstates1 l), hflag2.trans hflag1,
      hev2.trans hev1⟩

/-- A full update pass over settled cells only preserves every cell's
state, the flag and the event list. -/
lemma stepCols_all_settled {Loc Dir : Type} [DecidableEq Loc]
    (D : DirOps Dir) (dt : ℚ) (pp : PhysicsProperties)
    (st : TickState Loc Dir) (cols : List (List Loc)) :
    (∀ c ∈ cols, ∀ l ∈ c, (st.board.cells l).state = .Settled) →
    (∀ l, ((stepCols D dt pp st cols).board.cells l).state =
      (st.board.cells l).state) ∧
    (stepCols D dt pp st cols).settled = st.settled ∧
    (stepCols D dt pp st cols).events = st.events := by
  induction cols generalizing st with
  | nil => intro h; exact ⟨fun l => rfl, rfl, rfl⟩
  | cons c cs ih =>
    intro h
    have hc : ∀ l ∈ c,
        (({ st with jiggle_offset := 0 } : TickState Loc Dir).board.cells
          l).state = .Settled :=
      fun l hl => h c (List.mem_cons_self c cs) l hl
    obtain ⟨hstates1, hflag1, hev1⟩ :=
      stepCol_all_settled D dt pp { st with jiggle_offset := 0 } c hc
    have h2 : ∀ c0 ∈ cs, ∀ l ∈ c0,
        ((stepCol D dt pp { st with jiggle_offset := 0 } c).board.cells
          l).state = .Settled := by
      intro c0 hc0 l hl
      rw [hstates1 l]
      exact h c0 (List.mem_cons_of_mem c hc0) l hl
    obtain ⟨hstates2, hflag2, hev2⟩ :=
      ih (stepCol D dt pp { st with jiggle_offset := 0 } c) h2
    exact ⟨fun l => (hstates2 l).trans (hstates1 l), hflag2.trans hflag1,
      hev2.trans hev1⟩

/-- A column containing a non-settled cell forces the flag to false. -/
lemma stepCol_falsify {Loc Dir : Type} [DecidableEq Loc]
    (D : DirOps Dir) (dt : ℚ) (pp : PhysicsProperties)
    (st : TickState Loc Dir) (col : List Loc) :
    (∃ l ∈ col, (st.board.cells l).state ≠ .Settled) →
    (stepCol D dt pp st col).settled = false := by
  induction col generalizing st with
  | nil =>
    rintro ⟨l, hl, -⟩
    exact absurd hl (List.not_mem_nil l)
  | cons c cs ih =>
    rintro ⟨l, hl, hne⟩
    by_cases hc : (st.board.cells c).state = .Settled
    · obtain ⟨hstates1, hflag1, hev1⟩ := stepCell_settled_step D dt pp st c hc
      have hl2 : l ∈ cs := by
        rcases List.mem_cons.mp hl with h1 | h1
        · subst h1; exact absurd hc hne
        · exact h1
      refine ih (stepCell D dt pp st c) ⟨l, hl2, ?_⟩
      rw [hstates1 l]
      exact hne
    · exact stepCol_settled_false D dt pp _ cs
        (stepCell_not_settled D dt pp st c hc)

/-- A board containing a non-settled cell in some column forces the flag
of the whole update pass to false. -/
lemma stepCols_falsify {Loc Dir : Type} [DecidableEq Loc]
    (D : DirOps Dir) (dt : ℚ) (pp : PhysicsProperties)
    (st : TickState Loc Dir) (cols : List (List Loc)) :
    (∃ c ∈ cols, ∃ l ∈ c, (st.board.cells l).state ≠ .Settled) →
    (stepCols D dt pp st cols).settled = false := by
  induction cols generalizing st with
  | nil =>
    rintro ⟨c, hc, -⟩
    exact absurd hc (List.not_mem_nil c)
  | cons c cs ih =>
    rintro ⟨c0, hc0, l, hl, hne⟩
    by_cases hall : ∀ l2 ∈ c,
        (({ st with jiggle_offset := 0 } : TickState Loc Dir).board.cells
          l2).state = .Settled
    · obtain ⟨hstates1, hflag1, hev1⟩ :=
        stepCol_all_settled D dt pp { st with jiggle_offset := 0 } c hall
      rcases List.mem_cons.mp hc0 with h1 | h1
      · subst h1
        exact absurd (hall l hl) hne
      · refine ih (stepCol D dt pp { st with jiggle_offset := 0 } c)
          ⟨c0, h1, l, hl, ?_⟩
        rw [hstates1 l]
        exact hne
    · push_neg at hall
      obtain ⟨l2, hl2, hne2⟩ := hall
      exact stepCols_settled_false D dt pp _ cs
        (stepCol_falsify D dt pp _ c ⟨l2, hl2, hne2⟩)

/-- C1 amended: `run_physics` returns true iff every enumerated cell
BEGAN the tick `Settled` (the flag is the AND over cells of "entered this
tick settled"); when it returns true every enumerated cell also ends the
tick `Settled`.  The converse of the original claim fails: a cell can end
the tick `Settled` while the call returns false. -/
theorem spec_C1 {Loc Dir : Type} [DecidableEq Loc] (fuel : Nat)
    (D : DirOps Dir) (dt : ℚ) (pp : PhysicsProperties)
    (b : JigglyBoard Loc Dir) :
    ((runPhysics fuel D dt pp b).2 = true ↔
      ∀ c ∈ b.cols, ∀ l ∈ c, (b.cells l).state = .Settled) ∧
    ((runPhysics fuel D dt pp b).2 = true →
      ∀ c ∈ b.cols, ∀ l ∈ c,
        ((runPhysics fuel D dt pp b).1.cells l).state = .Settled) := by
  have hflag : (runPhysics fuel D dt pp b).2 =
      (stepCols D dt pp ⟨b, 0, true, []⟩ b.cols).settled := rfl
  have hiff : (runPhysics fuel D dt pp b).2 = true ↔
      ∀ c ∈ b.cols, ∀ l ∈ c, (b.cells l).state = .Settled := by
    constructor
    · intro htrue
      by_contra hcon
      push_neg at hcon
      obtain ⟨c, hc, l, hl, hne⟩ := hcon
      have hfalse := stepCols_falsify D dt pp ⟨b, 0, true, []⟩ b.cols
        ⟨c, hc, l, hl, hne⟩
      rw [hflag, hfalse] at htrue
      exact Bool.false_ne_true htrue
    · intro hall
      obtain ⟨-, hfl, -⟩ :=
        stepCols_all_settled D dt pp ⟨b, 0, true, []⟩ b.cols hall
      rw [hflag, hfl]
  refine ⟨hiff, ?_⟩
  intro htrue c hc l hl
  have hall := hiff.mp htrue
  obtain ⟨hstates, -, hev⟩ :=
    stepCols_all_settled D dt pp ⟨b, 0, true, []⟩ b.cols hall
  have hboard : (runPhysics fuel D dt pp b).1 =
      (stepCols D dt pp ⟨b, 0, true, []⟩ b.cols).board := by
    show (stepCols D dt pp ⟨b, 0, true, []⟩ b.cols).events.foldl _
      (stepCols D dt pp ⟨b, 0, true, []⟩ b.cols).board = _
    rw [hev]
    rfl
  rw [hboard, hstates l]
  exact hall c hc l hl

/-- Witness for C1 (amended): a board of one settled cell returns true. -/
theorem spec_C1_witness :
    (runPhysics 1 dirUnit 1 ppZero boardSettled).2 = true :=
  (spec_C1 1 dirUnit 1 ppZero boardSettled).1.mpr (fun _ _ _ _ => rfl)

/-- C1 counterexample: a single jiggling cell with life 0 settles during
the tick, so every cell ends the tick `Settled`, yet `run_physics`
returns false — refuting "false only if some cell ends the tick Falling
or Jiggling". -/
theorem spec_C1_counterexample :
    ((runPhysics 1 dirUnit 1 ppZero boardJiggleZero).1.cells ()).state =
      .Settled ∧
    (runPhysics 1 dirUnit 1 ppZero boardJiggleZero).2 = false := by
  constructor
  · norm_num [runPhysics, stepCols, stepCol, stepCell, updateCell, ppZero,
      boardJiggleZero, dirUnit]
  · norm_num [runPhysics, stepCols, stepCol, stepCell, updateCell, ppZero,
      boardJiggleZero, dirUnit]

end JigglyFever
